import Mathlib

/-!
# Verification of the contested-metric estimation engine

Shallow embedding of the two algorithmic components of the repository:

* the trend-imputation engine (`analysis/imputation.py`:
  `DataImputationEngine.fit_trend`, `DataImputationEngine.impute_missing_years`), and
* the posterior-reconciliation engine (`analysis/bayesian.py`:
  `BayesianTrueRange.compute_posterior`).

Modelling conventions:

* Machine floats are idealised as exact rationals (`ℚ`).  A float that may be
  NaN (a missing value) is `Option ℚ`, with `none` for NaN.
* Library routines whose results are transcendental or iterative —
  `np.exp`, the square root inside `np.std`, `scipy.stats.norm.ppf`, and
  `scipy.optimize.curve_fit` — are abstract oracle parameters.  `curve_fit`
  either returns fitted parameters or raises `RuntimeError`/`ValueError`
  (the exceptions the source catches); that outcome is an `Option`, with
  `none` for the caught non-convergence case.
* Random normal draws (`np.random.normal`) are modelled by an abstract
  stream `g : ℕ → ℚ` of standard-normal variates: draw `i` is
  `mean + std * g i`.  `np.random.shuffle` is an abstract list
  transformation, assumed (where needed) to permute its input.
-/

namespace IceDataExplorer

/-! ### Shared numeric helpers -/

/-- Arithmetic mean of a list of rationals (`np.mean`): sum divided by length
(junk value `0` on the empty list, which the code never hits). -/
def listMean (l : List ℚ) : ℚ := l.sum / l.length

/-- Population variance (`np.var`, the square of `np.std`): mean of squared
deviations from the mean. -/
def popVariance (l : List ℚ) : ℚ := listMean (l.map fun x => (x - listMean l) ^ 2)

/-- Python `int()` applied to the nonnegative quantities occurring in this
code base: truncation toward zero, which on nonnegative arguments is the
floor. -/
def pyInt (q : ℚ) : ℕ := ⌊q⌋.toNat

/-- Python `max` over a list (the code only evaluates it on nonempty lists). -/
def pyMax (l : List ℚ) : ℚ := l.foldl max (l.headD 0)

/-- Oracle bundle for the numeric library routines used by the imputation
engine: the final square root inside `np.std`, `np.exp`, and
`scipy.optimize.curve_fit` for the exponential model (parameters `(a, b, c)`)
and the logistic model (parameters `(L, k, x0, b)`). -/
structure NumOracles where
  sqrtQ : ℚ → ℚ
  expQ : ℚ → ℚ
  curveFitExp : List (ℚ × ℚ) → Option (ℚ × ℚ × ℚ)
  curveFitLog : List (ℚ × ℚ) → Option (ℚ × ℚ × ℚ × ℚ)

/-! ### Trend models (`fit_trend`) -/

/-- NaN removal in `fit_trend`: `mask = ~np.isnan(values)` applied to both
parallel arrays (paired removal keyed on the value being NaN). -/
def validPairs (years : List ℚ) (values : List (Option ℚ)) : List (ℚ × ℚ) :=
  (years.zip values).filterMap fun p => p.2.map fun v => (p.1, v)

/-- The dictionary `fit_trend` returns: the common fields of the
`linear` / `exponential` / `logistic` result dicts that the rest of the
code reads (`type`, `r_squared`, `residual_std`, `predict`).  The per-kind
coefficient fields (`slope`, `intercept`, `std_err`, `params`) are read by
no caller in the analysis pipeline and are recoverable from `predict`. -/
structure TrendModel where
  kind : String
  rSquared : ℚ
  residualStd : ℚ
  predict : ℚ → ℚ

/-- Centered sum of squares of the x (year) coordinates. -/
def sxx (pts : List (ℚ × ℚ)) : ℚ :=
  ((pts.map Prod.fst).map fun x => (x - listMean (pts.map Prod.fst)) ^ 2).sum

/-- Centered sum of squares of the y (value) coordinates. -/
def syy (pts : List (ℚ × ℚ)) : ℚ :=
  ((pts.map Prod.snd).map fun y => (y - listMean (pts.map Prod.snd)) ^ 2).sum

/-- Centered cross sum of products. -/
def sxy (pts : List (ℚ × ℚ)) : ℚ :=
  (pts.map fun p =>
    (p.1 - listMean (pts.map Prod.fst)) * (p.2 - listMean (pts.map Prod.snd))).sum

/-- The linear branch of `fit_trend`:
`scipy.stats.linregress` (ordinary least squares, idealised to exact
rational arithmetic: `slope = Sxy / Sxx`, `r_squared = Sxy^2 / (Sxx * Syy)`),
then `residual_std = np.std(values - predict(years))`. -/
def linearModel (O : NumOracles) (pts : List (ℚ × ℚ)) : TrendModel :=
  let slope := sxy pts / sxx pts
  let intercept := listMean (pts.map Prod.snd) - slope * listMean (pts.map Prod.fst)
  let predict := fun x => slope * x + intercept
  ⟨"linear", sxy pts ^ 2 / (sxx pts * syy pts),
    O.sqrtQ (popVariance (pts.map fun p => p.2 - predict p.1)), predict⟩

/-- The exponential success path of `fit_trend` with fitted
parameters `(a, b, c)`: `predict x = a * exp(b * (x - years[0])) + c`,
`r_squared = 1 - var(residuals) / var(values)`,
`residual_std = np.std(residuals)`. -/
def expModel (O : NumOracles) (pts : List (ℚ × ℚ)) (p : ℚ × ℚ × ℚ) : TrendModel :=
  let x0 := (pts.headD (0, 0)).1
  let predict := fun x => p.1 * O.expQ (p.2.1 * (x - x0)) + p.2.2
  let residuals := pts.map fun q => q.2 - predict q.1
  ⟨"exponential", 1 - popVariance residuals / popVariance (pts.map Prod.snd),
    O.sqrtQ (popVariance residuals), predict⟩

/-- The logistic success path of `fit_trend` with fitted
parameters `(L, k, x0, b)`: `predict x = L / (1 + exp(-k * (x - x0))) + b`,
same `r_squared` / `residual_std` formulas as the exponential model. -/
def logisticModel (O : NumOracles) (pts : List (ℚ × ℚ)) (p : ℚ × ℚ × ℚ × ℚ) : TrendModel :=
  let predict := fun x => p.1 / (1 + O.expQ (-p.2.1 * (x - p.2.2.1))) + p.2.2.2
  let residuals := pts.map fun q => q.2 - predict q.1
  ⟨"logistic", 1 - popVariance residuals / popVariance (pts.map Prod.snd),
    O.sqrtQ (popVariance residuals), predict⟩

/-- Embedding of `DataImputationEngine.fit_trend(years, values, model_type)`.

Control flow translated line by line: NaN removal first, then the
`len(years) < 3` guard returning `None`, then the `if/elif` chain on
`model_type`; an unrecognised `model_type` falls off the end of the chain
(implicit `return None`).  The `except (RuntimeError, ValueError)` handlers
around the two `curve_fit` calls re-enter `fit_trend` with the linear kind
on the already-filtered arrays; filtering is idempotent
(`validPairs_map_eq` below) and the length guard has already passed, so that
recursive call is exactly `some (linearModel O pts)`, which is how it is
written here. -/
def fitTrend (O : NumOracles) (years : List ℚ) (values : List (Option ℚ))
    (modelType : String) : Option TrendModel :=
  let pts := validPairs years values
  if pts.length < 3 then none
  else if modelType = "linear" then some (linearModel O pts)
  else if modelType = "exponential" then
    match O.curveFitExp pts with
    | some p => some (expModel O pts p)
    | none => some (linearModel O pts)
  else if modelType = "logistic" then
    match O.curveFitLog pts with
    | some p => some (logisticModel O pts p)
    | none => some (linearModel O pts)
  else none

/-- NaN filtering is idempotent: re-filtering the already-filtered parallel
arrays (as the recursive `fit_trend` fallback call does) returns the same
point list, so inlining the fallback as `linearModel` is faithful. -/
theorem validPairs_map_eq (pts : List (ℚ × ℚ)) :
    validPairs (pts.map Prod.fst) (pts.map fun p => some p.2) = pts := by
  induction pts with
  | nil => rfl
  | cons a l ih => simp [validPairs, List.zip] at ih ⊢; exact ih

/-! ### Imputation (`impute_missing_years`) -/

/-- The model-selection prelude of `impute_missing_years`.  For
the auto kind this is the loop over the linear and exponential kinds with
accumulator `(best_model, best_r2)` starting at `(None, -1)`, keeping a
fitted model only when its `r_squared` strictly exceeds `best_r2`;
otherwise a single explicit
`fit_trend` call. -/
def selectModel (O : NumOracles) (years : List ℚ) (values : List (Option ℚ))
    (modelType : String) : Option TrendModel :=
  if modelType = "auto" then
    (List.foldl
      (fun best mtype =>
        match fitTrend O years values mtype with
        | some m => if best.2 < m.rSquared then (some m, m.rSquared) else best
        | none => best)
      ((none : Option TrendModel), (-1 : ℚ))
      ["linear", "exponential"]).1
  else fitTrend O years values modelType

/-- One element of the `predictions` list built by `impute_missing_years`
(all fields are plain numbers/booleans, so equality is decidable). -/
structure ImputationEntry where
  year : ℚ
  predicted : ℚ
  lower : ℚ
  upper : ℚ
  uncertaintyFactor : ℚ
  isImputed : Bool
deriving DecidableEq

/-- The dict returned by `impute_missing_years`. -/
structure Imputation where
  model : TrendModel
  predictions : List ImputationEntry
  confidenceLevel : ℚ
  modelType : String
  rSquared : ℚ

/-- Embedding of `DataImputationEngine.impute_missing_years(known_years,
known_values, missing_years, model_type, confidence_level)`.

`zOf` is the oracle for `scipy.stats.norm.ppf`, applied (as in the source) to
`(1 + confidence_level) / 2`.  Per missing year y the source computes
`predicted = predict(y)`, `margin = z * residual_std`,
`years_out = max(0, y - max(known_years))`,
`uncertainty_factor = 1 + years_out * 0.15`, `margin *= uncertainty_factor`,
and emits `{year, predicted, lower: predicted - margin,
upper: predicted + margin, uncertainty_factor, is_imputed: True}`. -/
def imputeMissingYears (O : NumOracles) (zOf : ℚ → ℚ) (knownYears : List ℚ)
    (knownValues : List (Option ℚ)) (missingYears : List ℚ)
    (modelType : String) (confidenceLevel : ℚ) : Option Imputation :=
  match selectModel O knownYears knownValues modelType with
  | none => none
  | some model =>
    let z := zOf ((1 + confidenceLevel) / 2)
    let maxKnown := pyMax knownYears
    let predictions := missingYears.map fun year =>
      let predicted := model.predict year
      let yearsOut := max 0 (year - maxKnown)
      let uf := 1 + yearsOut * (15 / 100)
      let margin := z * model.residualStd * uf
      (⟨year, predicted, predicted - margin, predicted + margin, uf, true⟩ : ImputationEntry)
    some ⟨model, predictions, confidenceLevel, model.kind, model.rSquared⟩

/-! ### Posterior reconciliation (`compute_posterior`) -/

/-- One source estimate: `{mean, std}`. -/
structure SourceEstimate where
  mean : ℚ
  std : ℚ
deriving DecidableEq

/-- One entry of `BayesianTrueRange.contested_metrics`, as stored by
`add_contested_metric`. -/
structure ContestedMetric where
  official : SourceEstimate
  independent : SourceEstimate
  priorBias : String
deriving DecidableEq

/-- The skeptical / official / else-neutral `if` chain of
`compute_posterior` resolving `(w_official, w_independent)`. -/
def mixtureWeights (bias : String) : ℚ × ℚ :=
  if bias = "skeptical" then (3/10, 7/10)
  else if bias = "official" then (7/10, 3/10)
  else (1/2, 1/2)

/-- Partition size `n_official = int(n_samples * w_official)`. -/
def officialCount (n : ℕ) (w : ℚ) : ℕ := pyInt ((n : ℚ) * w)

/-- Partition size `n_independent = n_samples - n_official`. -/
def independentCount (n : ℕ) (w : ℚ) : ℕ := n - officialCount n w

/-- Embedding of `np.random.normal(mean, std, n)`: `n` draws from the abstract
standard-normal stream `g`, scaled and shifted. -/
def normalSamples (g : ℕ → ℚ) (mean std : ℚ) (n : ℕ) : List ℚ :=
  (List.range n).map fun i => mean + std * g i

/-- Linear-interpolation percentile evaluation on the (already sorted) sample
list at fractional index `p`: the default method of `np.percentile`, with the
upper index clipped into range the way numpy clips it. -/
def interpAt (s : List ℚ) (p : ℚ) : ℚ :=
  s.getD ⌊p⌋.toNat 0 +
    (p - (⌊p⌋.toNat : ℚ)) *
      (s.getD (⌊p⌋.toNat + 1) (s.getD ⌊p⌋.toNat 0) - s.getD ⌊p⌋.toNat 0)

/-- Embedding of `np.percentile(samples, q)` (default linear interpolation): sort, then
interpolate at fractional index `q / 100 * (len - 1)`.  Faithful for every
nonempty sample list; on the empty list it returns the junk value `0`,
whereas `np.percentile` raises there — so no theorem below is stated for an
empty sample set. -/
def percentile (samples : List ℚ) (q : ℚ) : ℚ :=
  interpAt (samples.insertionSort (· ≤ ·)) (q / 100 * ((samples.length - 1 : ℕ) : ℚ))

/-- The dict returned by `compute_posterior`.  The `std` entry
(`np.std(posterior_samples)`, an irrational square root no claim refers to)
is the one field not carried over; `mean`, `median` and the percentile
pairs are exact rationals. -/
structure Posterior where
  samples : List ℚ
  mean : ℚ
  median : ℚ
  ci90 : ℚ × ℚ
  ci50 : ℚ × ℚ
  official : SourceEstimate
  independent : SourceEstimate
  weights : ℚ × ℚ
deriving DecidableEq

/-- Embedding of `BayesianTrueRange.compute_posterior(metric_name, n_samples)`.

Here `catalog` is the `contested_metrics` dict of the engine (`none` = the
`metric_name not in self.contested_metrics` early `return None`).
`gOff`/`gInd` are the standard-normal streams behind the two
`np.random.normal` calls and `shuffle` models `np.random.shuffle`.
Percentiles `[5, 25, 50, 75, 95]` give `median`, `ci_90` and `ci_50`. -/
def computePosterior (catalog : String → Option ContestedMetric)
    (gOff gInd : ℕ → ℚ) (shuffle : List ℚ → List ℚ)
    (name : String) (nSamples : ℕ) : Option Posterior :=
  match catalog name with
  | none => none
  | some metric =>
    let w := mixtureWeights metric.priorBias
    let nOff := officialCount nSamples w.1
    let nInd := independentCount nSamples w.1
    let offS := normalSamples gOff metric.official.mean metric.official.std nOff
    let indS := normalSamples gInd metric.independent.mean metric.independent.std nInd
    let post := shuffle (offS ++ indS)
    some ⟨post, listMean post, percentile post 50,
      (percentile post 5, percentile post 95),
      (percentile post 25, percentile post 75),
      metric.official, metric.independent, w⟩

/-! ### Concrete fixtures used by the evaluation witnesses -/

/-- A concrete oracle bundle: identity square root / exponential, and
`curve_fit` calls that raise (are caught) on every input. -/
def sampleOracles : NumOracles := ⟨id, id, fun _ => none, fun _ => none⟩

/-- A one-metric catalog with a degenerate (zero mean / zero spread)
skeptical metric, so every draw evaluates to `0`. -/
def sampleCatalog : String → Option ContestedMetric := fun nm =>
  if nm = "detention" then some ⟨⟨0, 0⟩, ⟨0, 0⟩, "skeptical"⟩ else none

/-- The all-zeros standard-normal stream. -/
def zeroStream : ℕ → ℚ := fun _ => 0

/-! ### Shape lemmas for `fit_trend` -/

theorem fitTrend_linear_eq (O : NumOracles) (y : List ℚ) (v : List (Option ℚ))
    (h : ¬(validPairs y v).length < 3) :
    fitTrend O y v "linear" = some (linearModel O (validPairs y v)) := by
  simp [fitTrend, h]

theorem fitTrend_exponential_eq (O : NumOracles) (y : List ℚ) (v : List (Option ℚ))
    (h : ¬(validPairs y v).length < 3) :
    fitTrend O y v "exponential" =
      match O.curveFitExp (validPairs y v) with
      | some p => some (expModel O (validPairs y v) p)
      | none => some (linearModel O (validPairs y v)) := by
  simp [fitTrend, h]

theorem fitTrend_logistic_eq (O : NumOracles) (y : List ℚ) (v : List (Option ℚ))
    (h : ¬(validPairs y v).length < 3) :
    fitTrend O y v "logistic" =
      match O.curveFitLog (validPairs y v) with
      | some p => some (logisticModel O (validPairs y v) p)
      | none => some (linearModel O (validPairs y v)) := by
  simp [fitTrend, h]

theorem fitTrend_short (O : NumOracles) (y : List ℚ) (v : List (Option ℚ))
    (k : String) (h : (validPairs y v).length < 3) :
    fitTrend O y v k = none := by
  simp [fitTrend, h]

/-- C1: `fit_trend`, for each of the three recognised model kinds, first
performs paired NaN removal and then returns `None` exactly when fewer than
3 valid paired points remain; with exactly 3 valid points it succeeds, with
2 it returns `None`. -/
theorem fitTrend_insufficient_data_iff (O : NumOracles) (y : List ℚ)
    (v : List (Option ℚ)) (k : String)
    (hk : k = "linear" ∨ k = "exponential" ∨ k = "logistic") :
    (fitTrend O y v k = none ↔ (validPairs y v).length < 3) ∧
    ((validPairs y v).length = 3 → (fitTrend O y v k).isSome = true) ∧
    ((validPairs y v).length = 2 → fitTrend O y v k = none) := by
  have hiff : fitTrend O y v k = none ↔ (validPairs y v).length < 3 := by
    constructor
    · intro hnone
      by_contra h
      rcases hk with rfl | rfl | rfl
      · rw [fitTrend_linear_eq O y v h] at hnone; exact Option.noConfusion hnone
      · rw [fitTrend_exponential_eq O y v h] at hnone
        cases hc : O.curveFitExp (validPairs y v) <;> rw [hc] at hnone <;>
          exact Option.noConfusion hnone
      · rw [fitTrend_logistic_eq O y v h] at hnone
        cases hc : O.curveFitLog (validPairs y v) <;> rw [hc] at hnone <;>
          exact Option.noConfusion hnone
    · exact fitTrend_short O y v k
  refine ⟨hiff, fun h3 => ?_, fun h2 => hiff.mpr (by omega)⟩
  rw [Option.isSome_iff_ne_none]
  intro hnone
  have := hiff.mp hnone
  omega

/-- C1 witness: a 4-entry series with one NaN has exactly 3 valid paired
points, and the exponential fit succeeds on it. -/
theorem fitTrend_insufficient_data_iff_witness :
    (fitTrend sampleOracles [2018, 2019, 2020, 2021]
      [some 12, none, some 19, some 21] "exponential").isSome = true :=
  (fitTrend_insufficient_data_iff sampleOracles [2018, 2019, 2020, 2021]
      [some 12, none, some 19, some 21] "exponential"
      (Or.inr (Or.inl rfl))).2.1 (by decide)

/-- C2: with at least 3 valid paired points, if the nonlinear `curve_fit`
raises (modelled by the oracle returning `none`) the exponential/logistic
branches of `fit_trend` return the linear model fitted to the same filtered
data; and whatever the optimizer does, those branches always return a model
(never `None`, and — all functions being total here — never an error). -/
theorem fitTrend_nonlinear_fallback (O : NumOracles) (y : List ℚ)
    (v : List (Option ℚ)) (h3 : 3 ≤ (validPairs y v).length) :
    (O.curveFitExp (validPairs y v) = none →
      fitTrend O y v "exponential" = some (linearModel O (validPairs y v))) ∧
    (O.curveFitLog (validPairs y v) = none →
      fitTrend O y v "logistic" = some (linearModel O (validPairs y v))) ∧
    (fitTrend O y v "exponential").isSome = true ∧
    (fitTrend O y v "logistic").isSome = true := by
  have h : ¬(validPairs y v).length < 3 := by omega
  refine ⟨fun hc => ?_, fun hc => ?_, ?_, ?_⟩
  · rw [fitTrend_exponential_eq O y v h, hc]
  · rw [fitTrend_logistic_eq O y v h, hc]
  · rw [fitTrend_exponential_eq O y v h]
    cases O.curveFitExp (validPairs y v) <;> rfl
  · rw [fitTrend_logistic_eq O y v h]
    cases O.curveFitLog (validPairs y v) <;> rfl

/-- C2 witness: a concrete non-converging optimizer falls back to the linear
model of the filtered data. -/
theorem fitTrend_nonlinear_fallback_witness :
    fitTrend sampleOracles [1, 2, 3] [some 2, some 3, some 5] "exponential" =
      some (linearModel sampleOracles (validPairs [1, 2, 3] [some 2, some 3, some 5])) :=
  (fitTrend_nonlinear_fallback sampleOracles [1, 2, 3]
    [some 2, some 3, some 5] (by decide)).1 rfl

/-- C10: any `model_type` other than the three recognised kinds falls off the
end of the `if/elif` chain, so `fit_trend` returns `None` no matter how many
valid points were supplied — indistinguishable at the interface from the
insufficient-data outcome. -/
theorem fitTrend_unrecognized_kind (O : NumOracles) (y : List ℚ)
    (v : List (Option ℚ)) (k : String) (h1 : ¬k = "linear")
    (h2 : ¬k = "exponential") (h3 : ¬k = "logistic") :
    fitTrend O y v k = none := by
  simp [fitTrend, h1, h2, h3]

/-- C10 witness: an unrecognised kind on 3 perfectly valid points still
yields `None`. -/
theorem fitTrend_unrecognized_kind_witness :
    fitTrend sampleOracles [1, 2, 3] [some 1, some 2, some 3] "quadratic" = none :=
  fitTrend_unrecognized_kind sampleOracles [1, 2, 3] [some 1, some 2, some 3]
    "quadratic" (by decide) (by decide) (by decide)

/-! ### Posterior-engine lemmas -/

theorem mixtureWeights_fst_nonneg (bias : String) : 0 ≤ (mixtureWeights bias).1 := by
  unfold mixtureWeights
  split_ifs <;> norm_num

theorem mixtureWeights_fst_le_one (bias : String) : (mixtureWeights bias).1 ≤ 1 := by
  unfold mixtureWeights
  split_ifs <;> norm_num

theorem officialCount_le (n : ℕ) (w : ℚ) (h0 : 0 ≤ w) (h1 : w ≤ 1) :
    officialCount n w ≤ n := by
  unfold officialCount pyInt
  rw [Int.toNat_le]
  calc ⌊(n : ℚ) * w⌋ ≤ ⌊(n : ℚ)⌋ :=
        Int.floor_le_floor (mul_le_of_le_one_right (by positivity) h1)
    _ = n := Int.floor_natCast n

theorem normalSamples_length (g : ℕ → ℚ) (mean std : ℚ) (n : ℕ) :
    (normalSamples g mean std n).length = n := by
  simp [normalSamples]

/-- The result of a successful `compute_posterior`, field by field. -/
theorem computePosterior_eq (catalog : String → Option ContestedMetric)
    (gOff gInd : ℕ → ℚ) (shuffle : List ℚ → List ℚ) (name : String)
    (n : ℕ) (m : ContestedMetric) (hm : catalog name = some m) :
    computePosterior catalog gOff gInd shuffle name n =
      some ⟨shuffle
          (normalSamples gOff m.official.mean m.official.std
              (officialCount n (mixtureWeights m.priorBias).1) ++
            normalSamples gInd m.independent.mean m.independent.std
              (independentCount n (mixtureWeights m.priorBias).1)),
        listMean (shuffle
          (normalSamples gOff m.official.mean m.official.std
              (officialCount n (mixtureWeights m.priorBias).1) ++
            normalSamples gInd m.independent.mean m.independent.std
              (independentCount n (mixtureWeights m.priorBias).1))),
        percentile (shuffle
          (normalSamples gOff m.official.mean m.official.std
              (officialCount n (mixtureWeights m.priorBias).1) ++
            normalSamples gInd m.independent.mean m.independent.std
              (independentCount n (mixtureWeights m.priorBias).1))) 50,
        (percentile (shuffle
          (normalSamples gOff m.official.mean m.official.std
              (officialCount n (mixtureWeights m.priorBias).1) ++
            normalSamples gInd m.independent.mean m.independent.std
              (independentCount n (mixtureWeights m.priorBias).1))) 5,
         percentile (shuffle
          (normalSamples gOff m.official.mean m.official.std
              (officialCount n (mixtureWeights m.priorBias).1) ++
            normalSamples gInd m.independent.mean m.independent.std
              (independentCount n (mixtureWeights m.priorBias).1))) 95),
        (percentile (shuffle
          (normalSamples gOff m.official.mean m.official.std
              (officialCount n (mixtureWeights m.priorBias).1) ++
            normalSamples gInd m.independent.mean m.independent.std
              (independentCount n (mixtureWeights m.priorBias).1))) 25,
         percentile (shuffle
          (normalSamples gOff m.official.mean m.official.std
              (officialCount n (mixtureWeights m.priorBias).1) ++
            normalSamples gInd m.independent.mean m.independent.std
              (independentCount n (mixtureWeights m.priorBias).1))) 75),
        m.official, m.independent, mixtureWeights m.priorBias⟩ := by
  unfold computePosterior
  rw [hm]

/-- C3: the mixture weights are resolved purely from `prior_bias`
(`skeptical` ↦ (0.3, 0.7), `official` ↦ (0.7, 0.3), `neutral` ↦ (0.5, 0.5)),
independent of the numeric values of the metric, and the `weights` pair echoed in
the posterior is exactly the pair the sampling partition was built from. -/
theorem posterior_weights_from_bias (catalog : String → Option ContestedMetric)
    (gOff gInd : ℕ → ℚ) (shuffle : List ℚ → List ℚ) (name : String) (n : ℕ)
    (m : ContestedMetric) (hm : catalog name = some m) (p : Posterior)
    (hp : computePosterior catalog gOff gInd shuffle name n = some p) :
    p.weights = mixtureWeights m.priorBias ∧
    (m.priorBias = "skeptical" → p.weights = (3/10, 7/10)) ∧
    (m.priorBias = "official" → p.weights = (7/10, 3/10)) ∧
    (m.priorBias = "neutral" → p.weights = (1/2, 1/2)) ∧
    p.samples = shuffle
      (normalSamples gOff m.official.mean m.official.std
          (officialCount n (mixtureWeights m.priorBias).1) ++
        normalSamples gInd m.independent.mean m.independent.std
          (independentCount n (mixtureWeights m.priorBias).1)) := by
  rw [computePosterior_eq catalog gOff gInd shuffle name n m hm] at hp
  cases Option.some.inj hp
  refine ⟨rfl, fun hb => ?_, fun hb => ?_, fun hb => ?_, rfl⟩ <;> simp [hb, mixtureWeights]

/-- C3 witness: for the concrete skeptical fixture the echoed weights are
exactly (0.3, 0.7). -/
theorem posterior_weights_from_bias_witness :
    (⟨[0, 0, 0, 0, 0], 0, 0, (0, 0), (0, 0), ⟨0, 0⟩, ⟨0, 0⟩,
        (3/10, 7/10)⟩ : Posterior).weights = (3/10, 7/10) :=
  (posterior_weights_from_bias sampleCatalog zeroStream zeroStream id
    "detention" 5 ⟨⟨0, 0⟩, ⟨0, 0⟩, "skeptical"⟩ rfl
    ⟨[0, 0, 0, 0, 0], 0, 0, (0, 0), (0, 0), ⟨0, 0⟩, ⟨0, 0⟩, (3/10, 7/10)⟩
    (by with_unfolding_all decide)).2.1 rfl

/-- C4 counterexample: the code computes `n_official` with `int()`
(truncation), not `round()`.  At `sampleCount = 5` with the skeptical weight
0.3 the product is exactly 1.5 (this holds in IEEE double arithmetic too:
`5 * 0.3 == 1.5`), which `int()` truncates to 1 while rounding gives 2. -/
theorem partition_not_round :
    officialCount 5 (mixtureWeights "skeptical").1 = 1 ∧
    round ((5 : ℚ) * (mixtureWeights "skeptical").1) = 2 := by
  constructor
  · with_unfolding_all decide
  · norm_num [mixtureWeights, round_eq]

/-- C4 amended: `n_official = int(sampleCount * officialWeight)` (truncation
toward zero) and `n_independent = sampleCount - n_official`; the two
partition sizes always sum exactly to `sampleCount`. -/
theorem partition_counts_sum (n : ℕ) (bias : String) :
    officialCount n (mixtureWeights bias).1 +
      independentCount n (mixtureWeights bias).1 = n := by
  have h := officialCount_le n (mixtureWeights bias).1
    (mixtureWeights_fst_nonneg bias) (mixtureWeights_fst_le_one bias)
  unfold independentCount
  omega

/-- C5: whenever the metric is in the catalog and the shuffle is a
permutation, a successful `compute_posterior` returns exactly `sampleCount`
samples. -/
theorem posterior_sample_count (catalog : String → Option ContestedMetric)
    (gOff gInd : ℕ → ℚ) (shuffle : List ℚ → List ℚ)
    (hsh : ∀ l : List ℚ, (shuffle l).Perm l) (name : String)
    (m : ContestedMetric) (hm : catalog name = some m) (n : ℕ) (h2 : 2 ≤ n)
    (p : Posterior) (hp : computePosterior catalog gOff gInd shuffle name n = some p) :
    p.samples.length = n := by
  rw [computePosterior_eq catalog gOff gInd shuffle name n m hm] at hp
  cases Option.some.inj hp
  have h := officialCount_le n (mixtureWeights m.priorBias).1
    (mixtureWeights_fst_nonneg m.priorBias) (mixtureWeights_fst_le_one m.priorBias)
  rw [(hsh _).length_eq, List.length_append, normalSamples_length, normalSamples_length]
  unfold independentCount
  omega

/-- C5 witness: the degenerate skeptical fixture at `sampleCount = 5`. -/
theorem posterior_sample_count_witness :
    (⟨[0, 0, 0, 0, 0], 0, 0, (0, 0), (0, 0), ⟨0, 0⟩, ⟨0, 0⟩,
        (3/10, 7/10)⟩ : Posterior).samples.length = 5 :=
  posterior_sample_count sampleCatalog zeroStream zeroStream id
    (fun l => List.Perm.refl l) "detention" ⟨⟨0, 0⟩, ⟨0, 0⟩, "skeptical"⟩ rfl
    5 (by decide)
    ⟨[0, 0, 0, 0, 0], 0, 0, (0, 0), (0, 0), ⟨0, 0⟩, ⟨0, 0⟩, (3/10, 7/10)⟩
    (by with_unfolding_all decide)

/-- C9 counterexample: `compute_posterior` neither rejects nor clamps a
sample count below 2 — at `sampleCount = 1` it happily returns a posterior
computed from a single sample. -/
theorem posterior_below_two_samples :
    (computePosterior sampleCatalog zeroStream zeroStream id "detention" 1).map
      (fun p => p.samples.length) = some 1 := by
  with_unfolding_all decide

/-- C9 amended: `compute_posterior` performs no validation of `sampleCount`:
for a metric present in the catalog it returns, for every
`sampleCount ≥ 1` — including `sampleCount = 1`, below the claimed minimum
of 2 — a posterior with exactly `sampleCount` samples.  (`sampleCount = 0`
is not covered: there the real program crashes inside `np.percentile` on an
empty sample array instead of returning a posterior, an error path this
rational embedding does not model.) -/
theorem posterior_no_sample_count_validation (catalog : String → Option ContestedMetric)
    (gOff gInd : ℕ → ℚ) (shuffle : List ℚ → List ℚ)
    (hsh : ∀ l : List ℚ, (shuffle l).Perm l) (name : String)
    (m : ContestedMetric) (hm : catalog name = some m) (n : ℕ) (h1 : 1 ≤ n) :
    (computePosterior catalog gOff gInd shuffle name n).map
      (fun p => p.samples.length) = some n := by
  rw [computePosterior_eq catalog gOff gInd shuffle name n m hm]
  have h := officialCount_le n (mixtureWeights m.priorBias).1
    (mixtureWeights_fst_nonneg m.priorBias) (mixtureWeights_fst_le_one m.priorBias)
  simp only [Option.map_some', Option.some.injEq]
  rw [(hsh _).length_eq, List.length_append, normalSamples_length, normalSamples_length]
  unfold independentCount
  omega

/-- C9 amended witness: at `sampleCount = 1` a posterior is produced (with a
sample count, namely 1, that the preceding theorem pins to the request). -/
theorem posterior_no_sample_count_validation_witness :
    ((computePosterior sampleCatalog zeroStream zeroStream id "detention" 1).map
      (fun p => p.samples.length)).isSome = true := by
  rw [posterior_no_sample_count_validation sampleCatalog zeroStream zeroStream id
    (fun l => List.Perm.refl l) "detention" ⟨⟨0, 0⟩, ⟨0, 0⟩, "skeptical"⟩ rfl 1
    (by decide)]
  rfl

/-! ### Auto model selection -/

theorem sum_sq_nonneg (l : List ℚ) : 0 ≤ (l.map fun x => (x - listMean l) ^ 2).sum := by
  apply List.sum_nonneg
  intro x hx
  simp only [List.mem_map] at hx
  obtain ⟨a, _, rfl⟩ := hx
  positivity

theorem sxx_nonneg (pts : List (ℚ × ℚ)) : 0 ≤ sxx pts := sum_sq_nonneg _

theorem syy_nonneg (pts : List (ℚ × ℚ)) : 0 ≤ syy pts := sum_sq_nonneg _

/-- The coefficient of determination `Sxy^2 / (Sxx * Syy)` of the linear model
is nonnegative, so it always beats the initial `best_r2 = -1` of the loop. -/
theorem linearModel_rSquared_nonneg (O : NumOracles) (pts : List (ℚ × ℚ)) :
    0 ≤ (linearModel O pts).rSquared :=
  div_nonneg (sq_nonneg _) (mul_nonneg (sxx_nonneg pts) (syy_nonneg pts))

theorem linearModel_kind (O : NumOracles) (pts : List (ℚ × ℚ)) :
    (linearModel O pts).kind = "linear" := rfl

theorem expModel_kind (O : NumOracles) (pts : List (ℚ × ℚ)) (p : ℚ × ℚ × ℚ) :
    (expModel O pts p).kind = "exponential" := rfl

/-- C7: with the auto model kind, `impute_missing_years` fits exactly the
linear and exponential models and keeps whichever has the strictly higher
`r_squared` (ties and worse exponential fits keep linear); the logistic model
is never fitted or selected in auto mode; an explicit `model_type` fits only
that model. -/
theorem auto_selection (O : NumOracles) (y : List ℚ) (v : List (Option ℚ)) :
    (selectModel O y v "auto" =
      match fitTrend O y v "linear", fitTrend O y v "exponential" with
      | some L, some E => some (if L.rSquared < E.rSquared then E else L)
      | some L, none => some L
      | none, some E => some E
      | none, none => none) ∧
    (∀ k, ¬k = "auto" → selectModel O y v k = fitTrend O y v k) ∧
    (∀ m, selectModel O y v "auto" = some m → ¬m.kind = "logistic") := by
  have hmain : selectModel O y v "auto" =
      match fitTrend O y v "linear", fitTrend O y v "exponential" with
      | some L, some E => some (if L.rSquared < E.rSquared then E else L)
      | some L, none => some L
      | none, some E => some E
      | none, none => none := by
    by_cases h3 : (validPairs y v).length < 3
    · rw [selectModel, if_pos rfl]
      simp only [List.foldl]
      rw [fitTrend_short O y v "linear" h3, fitTrend_short O y v "exponential" h3]
    · have hL : fitTrend O y v "linear" = some (linearModel O (validPairs y v)) :=
        fitTrend_linear_eq O y v h3
      have hlt : (-1 : ℚ) < (linearModel O (validPairs y v)).rSquared :=
        lt_of_lt_of_le (by norm_num) (linearModel_rSquared_nonneg O _)
      rw [selectModel, if_pos rfl]
      simp only [List.foldl]
      rw [hL, fitTrend_exponential_eq O y v h3]
      cases hE : O.curveFitExp (validPairs y v) with
      | none =>
        simp only [if_pos hlt]
        split <;> rfl
      | some p =>
        simp only [if_pos hlt]
        split <;> rfl
  refine ⟨hmain, fun k hk => ?_, fun m hm => ?_⟩
  · rw [selectModel, if_neg hk]
  · rw [hmain] at hm
    by_cases h3 : (validPairs y v).length < 3
    · rw [fitTrend_short O y v "linear" h3, fitTrend_short O y v "exponential" h3] at hm
      exact Option.noConfusion hm
    · rw [fitTrend_linear_eq O y v h3, fitTrend_exponential_eq O y v h3] at hm
      cases hE : O.curveFitExp (validPairs y v) with
      | none =>
        rw [hE] at hm
        have hm2 := Option.some.inj hm
        split at hm2 <;> rw [← hm2, linearModel_kind] <;> decide
      | some p =>
        rw [hE] at hm
        have hm2 := Option.some.inj hm
        split at hm2
        · rw [← hm2, expModel_kind]; decide
        · rw [← hm2, linearModel_kind]; decide

/-- C7 witness: an explicit non-auto kind is fitted directly. -/
theorem auto_selection_witness :
    selectModel sampleOracles [1, 2, 3] [some 1, some 2, some 6] "logistic" =
      fitTrend sampleOracles [1, 2, 3] [some 1, some 2, some 6] "logistic" :=
  (auto_selection sampleOracles [1, 2, 3] [some 1, some 2, some 6]).2.1
    "logistic" (by decide)

/-! ### Imputation invariants -/

theorem listMean_nonneg (l : List ℚ) (h : ∀ x ∈ l, 0 ≤ x) : 0 ≤ listMean l :=
  div_nonneg (List.sum_nonneg h) (by positivity)

theorem popVariance_nonneg (l : List ℚ) : 0 ≤ popVariance l := by
  apply listMean_nonneg
  intro x hx
  simp only [List.mem_map] at hx
  obtain ⟨a, _, rfl⟩ := hx
  positivity

/-- Every model a (possibly `auto`) selection can produce is one of the three
constructors applied to the filtered points. -/
theorem selectModel_shape (O : NumOracles) (y : List ℚ) (v : List (Option ℚ))
    (k : String) (m : TrendModel) (h : selectModel O y v k = some m) :
    m = linearModel O (validPairs y v) ∨
    (∃ p, m = expModel O (validPairs y v) p) ∨
    (∃ p, m = logisticModel O (validPairs y v) p) := by
  have hfit : ∀ k2 m2, fitTrend O y v k2 = some m2 →
      m2 = linearModel O (validPairs y v) ∨
      (∃ p, m2 = expModel O (validPairs y v) p) ∨
      (∃ p, m2 = logisticModel O (validPairs y v) p) := by
    intro k2 m2 h2
    by_cases h3 : (validPairs y v).length < 3
    · rw [fitTrend_short O y v k2 h3] at h2
      exact Option.noConfusion h2
    · by_cases hk1 : k2 = "linear"
      · subst hk1
        rw [fitTrend_linear_eq O y v h3] at h2
        exact Or.inl (Option.some.inj h2).symm
      · by_cases hk2 : k2 = "exponential"
        · subst hk2
          rw [fitTrend_exponential_eq O y v h3] at h2
          cases hc : O.curveFitExp (validPairs y v) with
          | none => rw [hc] at h2; exact Or.inl (Option.some.inj h2).symm
          | some p =>
            rw [hc] at h2
            exact Or.inr (Or.inl ⟨p, (Option.some.inj h2).symm⟩)
        · by_cases hk3 : k2 = "logistic"
          · subst hk3
            rw [fitTrend_logistic_eq O y v h3] at h2
            cases hc : O.curveFitLog (validPairs y v) with
            | none => rw [hc] at h2; exact Or.inl (Option.some.inj h2).symm
            | some p =>
              rw [hc] at h2
              exact Or.inr (Or.inr ⟨p, (Option.some.inj h2).symm⟩)
          · rw [show fitTrend O y v k2 = none by simp [fitTrend, hk1, hk2, hk3]] at h2
            exact Option.noConfusion h2
  by_cases hk : k = "auto"
  · subst hk
    by_cases h3 : (validPairs y v).length < 3
    · rw [selectModel, if_pos rfl] at h
      simp only [List.foldl] at h
      rw [fitTrend_short O y v "linear" h3, fitTrend_short O y v "exponential" h3] at h
      exact Option.noConfusion h
    · have hlt : (-1 : ℚ) < (linearModel O (validPairs y v)).rSquared :=
        lt_of_lt_of_le (by norm_num) (linearModel_rSquared_nonneg O _)
      rw [selectModel, if_pos rfl] at h
      simp only [List.foldl] at h
      rw [fitTrend_linear_eq O y v h3, fitTrend_exponential_eq O y v h3] at h
      cases hc : O.curveFitExp (validPairs y v) with
      | none =>
        rw [hc] at h
        simp only [if_pos hlt] at h
        split at h <;> exact Or.inl (Option.some.inj h).symm
      | some p =>
        rw [hc] at h
        simp only [if_pos hlt] at h
        split at h
        · exact Or.inr (Or.inl ⟨p, (Option.some.inj h).symm⟩)
        · exact Or.inl (Option.some.inj h).symm
  · rw [selectModel, if_neg hk] at h
    exact hfit k m h

/-- The `residual_std` of every selected model is the square-root oracle applied
to a (provably nonnegative) population variance, hence nonnegative whenever
the oracle sends nonnegatives to nonnegatives (as a real square root does). -/
theorem selectModel_residualStd_nonneg (O : NumOracles) (y : List ℚ)
    (v : List (Option ℚ)) (k : String) (m : TrendModel)
    (hs : ∀ x, 0 ≤ x → 0 ≤ O.sqrtQ x) (h : selectModel O y v k = some m) :
    0 ≤ m.residualStd := by
  rcases selectModel_shape O y v k m h with hm | ⟨p, hm⟩ | ⟨p, hm⟩ <;> subst hm <;>
    exact hs _ (popVariance_nonneg _)

/-- A successful `impute_missing_years`, field by field. -/
theorem imputeMissingYears_eq_some (O : NumOracles) (zOf : ℚ → ℚ) (y : List ℚ)
    (v : List (Option ℚ)) (miss : List ℚ) (k : String) (cl : ℚ)
    (model : TrendModel) (h : selectModel O y v k = some model) :
    imputeMissingYears O zOf y v miss k cl =
      some ⟨model,
        miss.map fun year =>
          (⟨year, model.predict year,
            model.predict year -
              zOf ((1 + cl) / 2) * model.residualStd *
                (1 + max 0 (year - pyMax y) * (15 / 100)),
            model.predict year +
              zOf ((1 + cl) / 2) * model.residualStd *
                (1 + max 0 (year - pyMax y) * (15 / 100)),
            1 + max 0 (year - pyMax y) * (15 / 100), true⟩ : ImputationEntry),
        cl, model.kind, model.rSquared⟩ := by
  unfold imputeMissingYears
  rw [h]

theorem imputeMissingYears_eq_none (O : NumOracles) (zOf : ℚ → ℚ) (y : List ℚ)
    (v : List (Option ℚ)) (miss : List ℚ) (k : String) (cl : ℚ)
    (h : selectModel O y v k = none) :
    imputeMissingYears O zOf y v miss k cl = none := by
  unfold imputeMissingYears
  rw [h]

/-- C6: every imputation entry satisfies
`lower ≤ predicted ≤ upper` (margin `z * residual_std * uncertainty_factor`
with nonnegative z-score and square root), its uncertainty factor is exactly
`1 + 0.15 * max(0, year - max(knownYears))`, hence `≥ 1`, equal to `1` for
years not beyond the last known year, and non-decreasing in the year. -/
theorem imputation_invariants (O : NumOracles) (zOf : ℚ → ℚ) (y : List ℚ)
    (v : List (Option ℚ)) (miss : List ℚ) (k : String) (cl : ℚ)
    (hz : 0 ≤ zOf ((1 + cl) / 2)) (hs : ∀ x, 0 ≤ x → 0 ≤ O.sqrtQ x) :
    ∀ e ∈ (imputeMissingYears O zOf y v miss k cl).elim [] Imputation.predictions,
      (e.lower ≤ e.predicted ∧ e.predicted ≤ e.upper) ∧
      e.uncertaintyFactor = 1 + max 0 (e.year - pyMax y) * (15 / 100) ∧
      1 ≤ e.uncertaintyFactor ∧
      (e.year ≤ pyMax y → e.uncertaintyFactor = 1) ∧
      ∀ e2 ∈ (imputeMissingYears O zOf y v miss k cl).elim [] Imputation.predictions,
        e.year ≤ e2.year → e.uncertaintyFactor ≤ e2.uncertaintyFactor := by
  cases hsel : selectModel O y v k with
  | none =>
    rw [imputeMissingYears_eq_none O zOf y v miss k cl hsel]
    intro e he
    exact absurd he (List.not_mem_nil e)
  | some model =>
    rw [imputeMissingYears_eq_some O zOf y v miss k cl model hsel]
    intro e he
    simp only [Option.elim, List.mem_map] at he
    obtain ⟨year, _, rfl⟩ := he
    have hstd : 0 ≤ model.residualStd :=
      selectModel_residualStd_nonneg O y v k model hs hsel
    have hu0 : (0 : ℚ) ≤ max 0 (year - pyMax y) * (15 / 100) :=
      mul_nonneg (le_max_left 0 _) (by norm_num)
    have hu1 : (1 : ℚ) ≤ 1 + max 0 (year - pyMax y) * (15 / 100) := by linarith
    have hmargin : 0 ≤ zOf ((1 + cl) / 2) * model.residualStd *
        (1 + max 0 (year - pyMax y) * (15 / 100)) :=
      mul_nonneg (mul_nonneg hz hstd) (by linarith)
    refine ⟨⟨by simp only; linarith, by simp only; linarith⟩, rfl, hu1, ?_, ?_⟩
    · intro hle
      simp only
      rw [max_eq_left (sub_nonpos.mpr hle)]
      ring
    · intro e2 he2
      simp only [Option.elim, List.mem_map] at he2
      obtain ⟨year2, _, rfl⟩ := he2
      simp only
      intro hyy
      have : max 0 (year - pyMax y) ≤ max 0 (year2 - pyMax y) :=
        max_le_max le_rfl (sub_le_sub_right hyy _)
      nlinarith

/-- C6 witness: imputing year 4 from the perfectly linear series
(1,1),(2,2),(3,3) yields the entry (4, 4, 4, 4, 23/20) and it satisfies the
bound and factor invariants. -/
theorem imputation_invariants_witness :
    ((⟨4, 4, 4, 4, 23/20, true⟩ : ImputationEntry).lower ≤
        (⟨4, 4, 4, 4, 23/20, true⟩ : ImputationEntry).predicted ∧
      (⟨4, 4, 4, 4, 23/20, true⟩ : ImputationEntry).predicted ≤
        (⟨4, 4, 4, 4, 23/20, true⟩ : ImputationEntry).upper) ∧
    (⟨4, 4, 4, 4, 23/20, true⟩ : ImputationEntry).uncertaintyFactor =
      1 + max 0 ((⟨4, 4, 4, 4, 23/20, true⟩ : ImputationEntry).year -
        pyMax [1, 2, 3]) * (15 / 100) := by
  have h := imputation_invariants sampleOracles (fun _ => 2) [1, 2, 3]
    [some 1, some 2, some 3] [4] "linear" (95/100) (by norm_num)
    (fun x hx => hx) ⟨4, 4, 4, 4, 23/20, true⟩ (by with_unfolding_all decide)
  exact ⟨h.1, h.2.1⟩

/-! ### Percentile monotonicity and nested credible intervals -/

theorem getD_default_eq (s : List ℚ) (i : ℕ) (d : ℚ) (h : i < s.length) :
    s.getD i d = s.getD i 0 := by
  rw [List.getD_eq_get s d h, List.getD_eq_get s 0 h]

theorem sorted_getD_mono (s : List ℚ) (hs : s.Sorted (· ≤ ·)) (i j : ℕ)
    (hij : i ≤ j) (hj : j < s.length) : s.getD i 0 ≤ s.getD j 0 := by
  have hi : i < s.length := lt_of_le_of_lt hij hj
  rw [List.getD_eq_get s 0 hi, List.getD_eq_get s 0 hj]
  exact hs.rel_get_of_le (show (⟨i, hi⟩ : Fin s.length) ≤ ⟨j, hj⟩ from hij)

theorem toNat_floor_le (p : ℚ) (hp : 0 ≤ p) : ((⌊p⌋.toNat : ℚ)) ≤ p := by
  have h := Int.floor_nonneg.mpr hp
  rw [show ((⌊p⌋.toNat : ℚ)) = ((⌊p⌋ : ℚ)) by exact_mod_cast Int.toNat_of_nonneg h]
  exact Int.floor_le p

theorem lt_toNat_floor_add_one (p : ℚ) (hp : 0 ≤ p) : p < (⌊p⌋.toNat : ℚ) + 1 := by
  have h := Int.floor_nonneg.mpr hp
  rw [show ((⌊p⌋.toNat : ℚ)) = ((⌊p⌋ : ℚ)) by exact_mod_cast Int.toNat_of_nonneg h]
  exact Int.lt_floor_add_one p

/-- Linear interpolation over a sorted sample list is monotone in the
fractional index (on the index range numpy evaluates). -/
theorem interpAt_mono (s : List ℚ) (hs : s.Sorted (· ≤ ·)) (p1 p2 : ℚ)
    (h0 : 0 ≤ p1) (h12 : p1 ≤ p2) (hub : p2 ≤ ((s.length - 1 : ℕ) : ℚ)) :
    interpAt s p1 ≤ interpAt s p2 := by
  rcases Nat.eq_zero_or_pos s.length with hn | hn
  · rw [List.length_eq_zero] at hn
    subst hn
    unfold interpAt
    simp
  · unfold interpAt
    have h02 : 0 ≤ p2 := le_trans h0 h12
    have hf1lo : ((⌊p1⌋.toNat : ℚ)) ≤ p1 := toNat_floor_le p1 h0
    have hf1hi : p1 < (⌊p1⌋.toNat : ℚ) + 1 := lt_toNat_floor_add_one p1 h0
    have hf2lo : ((⌊p2⌋.toNat : ℚ)) ≤ p2 := toNat_floor_le p2 h02
    have hi12 : ⌊p1⌋.toNat ≤ ⌊p2⌋.toNat := Int.toNat_le_toNat (Int.floor_mono h12)
    have hi2n : ⌊p2⌋.toNat < s.length := by
      have hq : ((⌊p2⌋.toNat : ℚ)) ≤ ((s.length - 1 : ℕ) : ℚ) := le_trans hf2lo hub
      have h2 : ⌊p2⌋.toNat ≤ s.length - 1 := by exact_mod_cast hq
      omega
    have hi1n : ⌊p1⌋.toNat < s.length := lt_of_le_of_lt hi12 hi2n
    rcases eq_or_lt_of_le hi12 with heq | hlt
    · rw [← heq]
      by_cases hcell : ⌊p1⌋.toNat + 1 < s.length
      · rw [getD_default_eq s (⌊p1⌋.toNat + 1) _ hcell]
        have hadj : s.getD ⌊p1⌋.toNat 0 ≤ s.getD (⌊p1⌋.toNat + 1) 0 :=
          sorted_getD_mono s hs _ _ (Nat.le_succ _) hcell
        nlinarith [mul_nonneg (sub_nonneg.mpr h12) (sub_nonneg.mpr hadj)]
      · have hge : s.length ≤ ⌊p1⌋.toNat + 1 := by omega
        rw [List.getD_eq_default s _ hge]
        simp
    · have hcell1 : ⌊p1⌋.toNat + 1 < s.length := by omega
      have hB1 : s.getD (⌊p1⌋.toNat + 1) (s.getD ⌊p1⌋.toNat 0) =
          s.getD (⌊p1⌋.toNat + 1) 0 := getD_default_eq s _ _ hcell1
      have hadj1 : s.getD ⌊p1⌋.toNat 0 ≤ s.getD (⌊p1⌋.toNat + 1) 0 :=
        sorted_getD_mono s hs _ _ (Nat.le_succ _) hcell1
      have step1 : s.getD ⌊p1⌋.toNat 0 +
          (p1 - (⌊p1⌋.toNat : ℚ)) *
            (s.getD (⌊p1⌋.toNat + 1) (s.getD ⌊p1⌋.toNat 0) - s.getD ⌊p1⌋.toNat 0) ≤
          s.getD (⌊p1⌋.toNat + 1) 0 := by
        rw [hB1]
        nlinarith [mul_nonneg (by linarith : (0 : ℚ) ≤ 1 - (p1 - (⌊p1⌋.toNat : ℚ)))
          (sub_nonneg.mpr hadj1)]
      have step2 : s.getD (⌊p1⌋.toNat + 1) 0 ≤ s.getD ⌊p2⌋.toNat 0 :=
        sorted_getD_mono s hs _ _ (by omega) hi2n
      have step3 : s.getD ⌊p2⌋.toNat 0 ≤ s.getD ⌊p2⌋.toNat 0 +
          (p2 - (⌊p2⌋.toNat : ℚ)) *
            (s.getD (⌊p2⌋.toNat + 1) (s.getD ⌊p2⌋.toNat 0) - s.getD ⌊p2⌋.toNat 0) := by
        by_cases hcell2 : ⌊p2⌋.toNat + 1 < s.length
        · rw [getD_default_eq s (⌊p2⌋.toNat + 1) _ hcell2]
          have hadj2 : s.getD ⌊p2⌋.toNat 0 ≤ s.getD (⌊p2⌋.toNat + 1) 0 :=
            sorted_getD_mono s hs _ _ (Nat.le_succ _) hcell2
          nlinarith [mul_nonneg (by linarith : (0 : ℚ) ≤ p2 - (⌊p2⌋.toNat : ℚ))
            (sub_nonneg.mpr hadj2)]
        · have hge : s.length ≤ ⌊p2⌋.toNat + 1 := by omega
          rw [List.getD_eq_default s _ hge]
          simp
      linarith

/-- Percentile evaluation on the same sample set is monotone in the requested
percentile (for percentiles between 0 and 100). -/
theorem percentile_mono (samples : List ℚ) (q1 q2 : ℚ) (h0 : 0 ≤ q1)
    (h12 : q1 ≤ q2) (h100 : q2 ≤ 100) :
    percentile samples q1 ≤ percentile samples q2 := by
  unfold percentile
  have hlen : (samples.insertionSort (· ≤ ·)).length = samples.length :=
    (List.perm_insertionSort _ _).length_eq
  have hcast : (0 : ℚ) ≤ ((samples.length - 1 : ℕ) : ℚ) := Nat.cast_nonneg _
  apply interpAt_mono _ (List.sorted_insertionSort _ _)
  · positivity
  · apply mul_le_mul_of_nonneg_right _ hcast
    linarith
  · rw [hlen]
    calc q2 / 100 * ((samples.length - 1 : ℕ) : ℚ) ≤
        1 * ((samples.length - 1 : ℕ) : ℚ) := by
          apply mul_le_mul_of_nonneg_right _ hcast
          linarith
      _ = ((samples.length - 1 : ℕ) : ℚ) := one_mul _

/-- C8: in every posterior, the 50% credible interval is nested inside the
90% one: `ci90.low ≤ ci50.low ≤ ci50.high ≤ ci90.high` (the 5th/25th/75th/
95th percentiles of the same sample set are correctly ordered). -/
theorem posterior_ci_nested (catalog : String → Option ContestedMetric)
    (gOff gInd : ℕ → ℚ) (shuffle : List ℚ → List ℚ) (name : String) (n : ℕ)
    (p : Posterior) (hp : computePosterior catalog gOff gInd shuffle name n = some p) :
    p.ci90.1 ≤ p.ci50.1 ∧ p.ci50.1 ≤ p.ci50.2 ∧ p.ci50.2 ≤ p.ci90.2 := by
  cases hcat : catalog name with
  | none => rw [computePosterior, hcat] at hp; exact Option.noConfusion hp
  | some m =>
    rw [computePosterior_eq catalog gOff gInd shuffle name n m hcat] at hp
    cases Option.some.inj hp
    exact ⟨percentile_mono _ 5 25 (by norm_num) (by norm_num) (by norm_num),
      percentile_mono _ 25 75 (by norm_num) (by norm_num) (by norm_num),
      percentile_mono _ 75 95 (by norm_num) (by norm_num) (by norm_num)⟩

/-- C8 witness: the degenerate skeptical fixture at `sampleCount = 5`. -/
theorem posterior_ci_nested_witness :
    (⟨[0, 0, 0, 0, 0], 0, 0, (0, 0), (0, 0), ⟨0, 0⟩, ⟨0, 0⟩,
        (3/10, 7/10)⟩ : Posterior).ci90.1 ≤
      (⟨[0, 0, 0, 0, 0], 0, 0, (0, 0), (0, 0), ⟨0, 0⟩, ⟨0, 0⟩,
        (3/10, 7/10)⟩ : Posterior).ci50.1 ∧
    (⟨[0, 0, 0, 0, 0], 0, 0, (0, 0), (0, 0), ⟨0, 0⟩, ⟨0, 0⟩,
        (3/10, 7/10)⟩ : Posterior).ci50.1 ≤
      (⟨[0, 0, 0, 0, 0], 0, 0, (0, 0), (0, 0), ⟨0, 0⟩, ⟨0, 0⟩,
        (3/10, 7/10)⟩ : Posterior).ci50.2 ∧
    (⟨[0, 0, 0, 0, 0], 0, 0, (0, 0), (0, 0), ⟨0, 0⟩, ⟨0, 0⟩,
        (3/10, 7/10)⟩ : Posterior).ci50.2 ≤
      (⟨[0, 0, 0, 0, 0], 0, 0, (0, 0), (0, 0), ⟨0, 0⟩, ⟨0, 0⟩,
        (3/10, 7/10)⟩ : Posterior).ci90.2 :=
  posterior_ci_nested sampleCatalog zeroStream zeroStream id "detention" 5
    ⟨[0, 0, 0, 0, 0], 0, 0, (0, 0), (0, 0), ⟨0, 0⟩, ⟨0, 0⟩, (3/10, 7/10)⟩
    (by with_unfolding_all decide)

end IceDataExplorer
